import Mathlib

/-!
Verification development for the statistical monitoring engine of
`src/projects/project-04-monitoring-alerting/src/custom_metrics.py`.

The Python module is a skeleton whose method bodies carry the reference
implementation as inline step-by-step code (the executable bodies are
placeholders).  The definitions below are a shallow embedding of those
reference implementations: Python floats are modelled by `ℚ` wherever the
computation is rational (histogram binning, proportions, accuracy) and by
`ℝ` where logarithms or square roots appear; Python lists become `List`,
`None`-able values become `Option`, raised exceptions become `Except`.
Definitions that are explicitly marked as following the specification text
rather than the source say so in their doc comment.
-/

/-! ## Histogram infrastructure (numpy.histogram on uniform bins) -/

/-- Minimum of a rational list, `0` for the empty list (numpy would reject
an empty sample; all statements about histograms assume nonempty input). -/
def listMin : List ℚ → ℚ
  | [] => 0
  | x :: xs => xs.foldl min x

/-- Maximum of a rational list, `0` for the empty list. -/
def listMax : List ℚ → ℚ
  | [] => 0
  | x :: xs => xs.foldl max x

/-- `n+1` points starting at `cur`, each `step` apart. -/
def linspaceFrom (cur step : ℚ) : ℕ → List ℚ
  | 0 => [cur]
  | n + 1 => cur :: linspaceFrom (cur + step) step n

/-- `numpy.linspace a b (n+1)`: the `n+1` equally spaced edges of `n` bins
over `[a, b]`, computed exactly over `ℚ` (so repeated addition of the step
agrees exactly with `a + i * (b - a) / n`). -/
def linspace (a b : ℚ) (n : ℕ) : List ℚ :=
  linspaceFrom a ((b - a) / n) n

/-- Bin edges used by `numpy.histogram data bins`: `bins + 1` points evenly
spaced over `[min data, max data]`; when the sample range is degenerate
(`min = max`) numpy widens it by `1/2` on each side. -/
def histEdges (data : List ℚ) (bins : ℕ) : List ℚ :=
  let lo := listMin data
  let hi := listMax data
  if lo = hi then linspace (lo - 1/2) (hi + 1/2) bins
  else linspace lo hi bins

/-- Worker for `histCounts`, walking the consecutive edge pairs. -/
def histCountsAux (data : List ℚ) : List ℚ → List ℕ
  | [] => []
  | [_] => []
  | [e1, e2] => [data.countP (fun x => decide (e1 ≤ x) && decide (x ≤ e2))]
  | e1 :: e2 :: e3 :: rest =>
      data.countP (fun x => decide (e1 ≤ x) && decide (x < e2)) ::
        histCountsAux data (e2 :: e3 :: rest)

/-- Counts of `numpy.histogram`: bin `i` is the half-open interval
`[e i, e (i+1))`, except the last bin which also includes its right edge;
values outside `[e 0, e bins]` are not counted. -/
def histCounts (edges : List ℚ) (data : List ℚ) : List ℕ :=
  histCountsAux data edges

/-- Normalise histogram counts to a probability vector (`hist / hist.sum`).
In the source the counts are first turned into densities
(`density=True`) and then divided by their sum; because `linspace` bins all
have the same width this is the same as dividing the raw counts by their
sum, which is what we write here.  The source's division is `0.0 / 0.0 =
NaN` when the counts are all zero; `jensen_shannon_divergence` models that
case explicitly as `none` and applies `normalizeHist` only when the sum is
positive, so the `ℚ` convention `x / 0 = 0` is never relied upon. -/
def normalizeHist (counts : List ℕ) : List ℚ :=
  counts.map (fun c : ℕ => (c : ℚ) / (counts.sum : ℚ))

/-! ## Jensen–Shannon divergence (scipy.spatial.distance.jensenshannon) -/

/-- One Kullback–Leibler summand `p * log (p / m)` with the usual
convention that the term vanishes when `p = 0`. -/
noncomputable def klTerm (p m : ℚ) : ℝ :=
  if p = 0 then 0 else (p : ℝ) * Real.log ((p : ℝ) / (m : ℝ))

/-- `Σᵢ pᵢ * log (pᵢ / mᵢ)` where `mᵢ = (pᵢ + qᵢ) / 2`, the relative
entropy of `p` against the pointwise midpoint of `p` and `q`. -/
noncomputable def klSum (p q : List ℚ) : ℝ :=
  ((p.zip q).map (fun x => klTerm x.1 ((x.1 + x.2) / 2))).sum

/-- Jensen–Shannon divergence (natural base) of two probability vectors. -/
noncomputable def jsd (p q : List ℚ) : ℝ :=
  (klSum p q + klSum q p) / 2

/-- `DataDriftDetector.jensen_shannon_divergence` (custom_metrics.py,
lines 212–250): histogram both samples over 50 bins whose edges come from
the *reference* sample, normalise each histogram to a probability vector,
and return `scipy.spatial.distance.jensenshannon` of the two vectors,
which is the square root of the natural-base Jensen–Shannon divergence.
When a sample contributes no point to any reference-derived bin its
histogram is all zeros and the source's normalisation computes
`0.0 / 0.0 = NaN`, which `jensenshannon` propagates: the call returns NaN
instead of a number.  The embedding makes that outcome explicit as
`none` (a nonempty reference always populates its own histogram — see
`hist_sum_pos` — so on the reference side the guard only fires for the
empty sample, where numpy likewise produces no number). -/
noncomputable def jensen_shannon_divergence (reference current : List ℚ) : Option ℝ :=
  if (histCounts (histEdges reference 50) reference).sum = 0 ∨
      (histCounts (histEdges reference 50) current).sum = 0 then none
  else some (Real.sqrt (jsd
    (normalizeHist (histCounts (histEdges reference 50) reference))
    (normalizeHist (histCounts (histEdges reference 50) current))))

/-! ## Population Stability Index -/

/-- The small constant substituted for a zero bin proportion. -/
def psiEpsilon : ℚ := 1 / 10 ^ 10

/-- Replace zero proportions by `psiEpsilon` (`np.where (pct == 0, ε, pct)`). -/
def zeroReplace (l : List ℚ) : List ℚ :=
  l.map (fun x => if x = 0 then psiEpsilon else x)

/-- `DataDriftDetector.population_stability_index` (custom_metrics.py,
lines 164–210): bin both samples into 10 bins with edges derived from the
reference sample, divide the counts by the respective sample sizes,
replace zero proportions by `1e-10`, and sum
`(curᵢ - refᵢ) * ln (curᵢ / refᵢ)` over the bins. -/
noncomputable def population_stability_index (reference current : List ℚ) : ℝ :=
  let bin_edges := histEdges reference 10
  let ref_pct := zeroReplace
    ((histCounts bin_edges reference).map (fun c : ℕ => (c : ℚ) / (reference.length : ℚ)))
  let cur_pct := zeroReplace
    ((histCounts bin_edges current).map (fun c : ℕ => (c : ℚ) / (current.length : ℚ)))
  ((cur_pct.zip ref_pct).map
    (fun x => ((x.1 - x.2 : ℚ) : ℝ) * Real.log ((x.1 : ℝ) / (x.2 : ℝ)))).sum

/-- Modelled from the spec: §4.1's PSI sentence, "bin both samples into the
same `bins` edges (edges derived from the reference sample's min/max,
default 10 bins); convert counts to proportions; replace any zero
proportion with a small epsilon (e.g. 1e-10); statistic =
Σ (cur_i − ref_i)·ln(cur_i/ref_i)".  Stated independently of
`population_stability_index` so that the agreement of the two can be
proved rather than assumed. -/
noncomputable def psi_formula_spec (reference current : List ℚ) : ℝ :=
  (((zeroReplace ((histCounts (histEdges reference 10) current).map
        (fun c : ℕ => (c : ℚ) / (current.length : ℚ)))).zip
    (zeroReplace ((histCounts (histEdges reference 10) reference).map
        (fun c : ℕ => (c : ℚ) / (reference.length : ℚ))))).map
    (fun x => ((x.1 - x.2 : ℚ) : ℝ) * Real.log ((x.1 : ℝ) / (x.2 : ℝ)))).sum

/-! ## Basic lemmas about the divergence kernels -/

theorem klTerm_self (a : ℚ) : klTerm a a = 0 := by
  unfold klTerm
  split
  · rfl
  · rename_i h
    rw [div_self (by exact_mod_cast h), Real.log_one, mul_zero]

theorem klSum_self (p : List ℚ) : klSum p p = 0 := by
  induction p with
  | nil => simp [klSum]
  | cons a p ih =>
    simp only [klSum, List.zip_cons_cons, List.map_cons, List.sum_cons]
    have : (a + a) / 2 = a := by ring
    rw [this, klTerm_self]
    simpa [klSum] using ih

theorem jsd_self (p : List ℚ) : jsd p p = 0 := by
  simp [jsd, klSum_self]

theorem jsd_comm (p q : List ℚ) : jsd p q = jsd q p := by
  simp [jsd, add_comm]

theorem klTerm_nonneg_bound (a b : ℚ) (ha : 0 ≤ a) (hb : 0 ≤ b) :
    klTerm a ((a + b) / 2) ≤ (a : ℝ) * Real.log 2 := by
  unfold klTerm
  split
  · rename_i h
    subst h
    simp [Real.log_nonneg, mul_nonneg]
  · rename_i h
    have ha' : (0 : ℝ) < (a : ℝ) := by
      exact_mod_cast lt_of_le_of_ne ha (Ne.symm h)
    have hm : (0 : ℝ) < (((a + b) / 2 : ℚ) : ℝ) := by
      have : (0 : ℚ) < (a + b) / 2 := by
        have : (0 : ℚ) < a := lt_of_le_of_ne ha (Ne.symm h)
        linarith
      exact_mod_cast this
    have hb' : (0 : ℝ) ≤ (b : ℝ) := by exact_mod_cast hb
    have hratio : (a : ℝ) / (((a + b) / 2 : ℚ) : ℝ) ≤ 2 := by
      rw [div_le_iff₀ hm]
      push_cast
      linarith
    have hlog : Real.log ((a : ℝ) / (((a + b) / 2 : ℚ) : ℝ)) ≤ Real.log 2 :=
      Real.log_le_log (div_pos ha' hm) hratio
    exact mul_le_mul_of_nonneg_left hlog (le_of_lt ha')

theorem klSum_le (p q : List ℚ) (hp : ∀ x ∈ p, 0 ≤ x) (hq : ∀ x ∈ q, 0 ≤ x) :
    klSum p q ≤ Real.log 2 * ((p.sum : ℚ) : ℝ) := by
  induction p generalizing q with
  | nil => simp [klSum]
  | cons a p ih =>
    cases q with
    | nil =>
      simp only [klSum, List.zip_nil_right, List.map_nil, List.sum_nil]
      have hps : (0 : ℚ) ≤ (a :: p).sum := by
        apply List.sum_nonneg
        intro x hx
        exact hp x hx
      have : (0 : ℝ) ≤ ((a :: p).sum : ℝ) := by exact_mod_cast hps
      positivity
    | cons b q =>
      simp only [klSum, List.zip_cons_cons, List.map_cons, List.sum_cons]
      have h1 : klTerm a ((a + b) / 2) ≤ (a : ℝ) * Real.log 2 :=
        klTerm_nonneg_bound a b (hp a (by simp)) (hq b (by simp))
      have h2 : klSum p q ≤ Real.log 2 * ((p.sum : ℚ) : ℝ) :=
        ih q (fun x hx => hp x (by simp [hx])) (fun x hx => hq x (by simp [hx]))
      have h2' : ((p.zip q).map (fun x => klTerm x.1 ((x.1 + x.2) / 2))).sum ≤
          Real.log 2 * ((p.sum : ℚ) : ℝ) := h2
      rw [Rat.cast_add]
      nlinarith [h1, h2']

theorem klSum_le_log_two (p q : List ℚ) (hp : ∀ x ∈ p, 0 ≤ x) (hq : ∀ x ∈ q, 0 ≤ x)
    (hps : p.sum ≤ 1) : klSum p q ≤ Real.log 2 := by
  have h := klSum_le p q hp hq
  have hcast : ((p.sum : ℚ) : ℝ) ≤ 1 := by exact_mod_cast hps
  have hlog : (0 : ℝ) ≤ Real.log 2 := Real.log_nonneg (by norm_num)
  nlinarith

theorem jsd_le_one (p q : List ℚ) (hp : ∀ x ∈ p, 0 ≤ x) (hq : ∀ x ∈ q, 0 ≤ x)
    (hps : p.sum ≤ 1) (hqs : q.sum ≤ 1) : jsd p q ≤ 1 := by
  have h1 := klSum_le_log_two p q hp hq hps
  have h2 := klSum_le_log_two q p hq hp hqs
  have hlog : Real.log 2 ≤ 1 := by
    have := Real.log_le_sub_one_of_pos (show (0 : ℝ) < 2 by norm_num)
    linarith
  unfold jsd
  linarith

theorem normalizeHist_nonneg (c : List ℕ) : ∀ x ∈ normalizeHist c, 0 ≤ x := by
  intro x hx
  simp only [normalizeHist, List.mem_map] at hx
  obtain ⟨a, _, rfl⟩ := hx
  exact div_nonneg (Nat.cast_nonneg a) (Nat.cast_nonneg _)

theorem sum_map_nat_div (c : List ℕ) (T : ℚ) :
    (c.map (fun n : ℕ => (n : ℚ) / T)).sum = (c.sum : ℚ) / T := by
  induction c with
  | nil => simp
  | cons a c ih => simp [ih, add_div]

theorem normalizeHist_sum_le_one (c : List ℕ) : (normalizeHist c).sum ≤ 1 := by
  unfold normalizeHist
  rw [sum_map_nat_div]
  rcases Nat.eq_zero_or_pos c.sum with h | h
  · simp [h]
  · have hpos : (0 : ℚ) < (c.sum : ℚ) := by exact_mod_cast h
    rw [div_self (ne_of_gt hpos)]

theorem log_two_ge_half : (1/2 : ℝ) ≤ Real.log 2 := by
  have h := Real.log_le_sub_one_of_pos (show (0 : ℝ) < 1/2 by norm_num)
  have h2 : Real.log (1/2 : ℝ) = -Real.log 2 := by
    rw [show (1/2 : ℝ) = 2⁻¹ by norm_num, Real.log_inv]
  linarith

theorem log_sixfifths_ge : (1/6 : ℝ) ≤ Real.log (6/5) := by
  have h := Real.log_le_sub_one_of_pos (show (0 : ℝ) < 5/6 by norm_num)
  have h2 : Real.log (5/6 : ℝ) = -Real.log (6/5) := by
    rw [show (5/6 : ℝ) = (6/5)⁻¹ by norm_num, Real.log_inv]
  linarith

theorem log_fourfifths_ge : -(1/4 : ℝ) ≤ Real.log (4/5) := by
  have h := Real.log_le_sub_one_of_pos (show (0 : ℝ) < 5/4 by norm_num)
  have h2 : Real.log (5/4 : ℝ) = -Real.log (4/5) := by
    rw [show (5/4 : ℝ) = (4/5)⁻¹ by norm_num, Real.log_inv]
  linarith

theorem foldl_min_le (as : List ℚ) : ∀ a : ℚ, as.foldl min a ≤ a := by
  induction as with
  | nil => intro a; exact le_refl a
  | cons b as ih => intro a; exact le_trans (ih (min a b)) (min_le_left a b)

theorem foldl_min_le_of_mem (as : List ℚ) :
    ∀ (a x : ℚ), x ∈ as → as.foldl min a ≤ x := by
  induction as with
  | nil => intro a x hx; simp at hx
  | cons b as ih =>
    intro a x hx
    rcases List.mem_cons.mp hx with rfl | hmem
    · exact le_trans (foldl_min_le as (min a x)) (min_le_right a x)
    · exact ih (min a b) x hmem

theorem listMin_le_mem (A : List ℚ) (x : ℚ) (hx : x ∈ A) : listMin A ≤ x := by
  cases A with
  | nil => simp at hx
  | cons a as =>
    rcases List.mem_cons.mp hx with rfl | hmem
    · exact foldl_min_le as x
    · exact foldl_min_le_of_mem as a x hmem

theorem le_foldl_max (as : List ℚ) : ∀ a : ℚ, a ≤ as.foldl max a := by
  induction as with
  | nil => intro a; exact le_refl a
  | cons b as ih => intro a; exact le_trans (le_max_left a b) (ih (max a b))

theorem mem_le_foldl_max (as : List ℚ) :
    ∀ (a x : ℚ), x ∈ as → x ≤ as.foldl max a := by
  induction as with
  | nil => intro a x hx; simp at hx
  | cons b as ih =>
    intro a x hx
    rcases List.mem_cons.mp hx with rfl | hmem
    · exact le_trans (le_max_right a x) (le_foldl_max as (max a x))
    · exact ih (max a b) x hmem

theorem mem_le_listMax (A : List ℚ) (x : ℚ) (hx : x ∈ A) : x ≤ listMax A := by
  cases A with
  | nil => simp at hx
  | cons a as =>
    rcases List.mem_cons.mp hx with rfl | hmem
    · exact le_foldl_max as x
    · exact mem_le_foldl_max as a x hmem

theorem linspaceFrom_ne_nil (cur step : ℚ) (n : ℕ) : linspaceFrom cur step n ≠ [] := by
  cases n <;> simp [linspaceFrom]

theorem histCountsAux_cons (data : List ℚ) (e1 e2 : ℚ) (es : List ℚ) (h : es ≠ []) :
    histCountsAux data (e1 :: e2 :: es) =
      data.countP (fun x => decide (e1 ≤ x) && decide (x < e2)) ::
        histCountsAux data (e2 :: es) := by
  cases es with
  | nil => simp at h
  | cons e3 rest => rfl

/-- Any data point lying between the first and the last edge of a
`linspaceFrom` edge list is counted by some bin, so the histogram sum is
positive. -/
theorem histCountsAux_linspaceFrom_pos (data : List ℚ) (x : ℚ) (hx : x ∈ data) :
    ∀ (n : ℕ) (cur step : ℚ), 1 ≤ n → cur ≤ x → x ≤ cur + n * step →
      1 ≤ (histCountsAux data (linspaceFrom cur step n)).sum := by
  intro n
  induction n with
  | zero => intro cur step h; omega
  | succ m ih =>
    intro cur step _ hcur hupper
    cases m with
    | zero =>
      show 1 ≤ (histCountsAux data [cur, cur + step]).sum
      simp only [histCountsAux, List.sum_cons, List.sum_nil, add_zero]
      have hpos : 0 < data.countP (fun y => decide (cur ≤ y) && decide (y ≤ cur + step)) := by
        rw [List.countP_pos]
        refine ⟨x, hx, ?_⟩
        simp only [Bool.and_eq_true, decide_eq_true_eq]
        push_cast at hupper
        exact ⟨hcur, by linarith⟩
      omega
    | succ k =>
      have hun : linspaceFrom cur step (k + 1 + 1) =
          cur :: (cur + step) :: linspaceFrom (cur + step + step) step k := rfl
      rw [hun,
        histCountsAux_cons data cur (cur + step) _ (linspaceFrom_ne_nil _ _ _),
        List.sum_cons]
      by_cases hlt : x < cur + step
      · have hpos : 0 < data.countP (fun y => decide (cur ≤ y) && decide (y < cur + step)) := by
          rw [List.countP_pos]
          exact ⟨x, hx, by simp [hcur, hlt]⟩
        omega
      · push_neg at hlt
        have h2 : x ≤ (cur + step) + ((k + 1 : ℕ) : ℚ) * step := by
          push_cast at hupper ⊢
          linarith
        have hrec := ih (cur + step) step (by omega) hlt h2
        have he : linspaceFrom (cur + step) step (k + 1) =
            (cur + step) :: linspaceFrom (cur + step + step) step k := rfl
        rw [he] at hrec
        omega

/-- A nonempty sample always populates the histogram built over its own
reference-derived edges: every value lies between the first and last edge
(in the degenerate `min = max` case numpy widens the range by `1/2` each
side), so the counts cannot be all zero.  This is why the source's JS
normalisation never hits `0/0` on the reference side. -/
theorem hist_sum_pos (A : List ℚ) (hA : A ≠ []) (bins : ℕ) (hb : 1 ≤ bins) :
    1 ≤ (histCounts (histEdges A bins) A).sum := by
  obtain ⟨a, as, rfl⟩ := List.exists_cons_of_ne_nil hA
  have hmem : a ∈ a :: as := by simp
  have hmin : listMin (a :: as) ≤ a := listMin_le_mem _ _ hmem
  have hmax : a ≤ listMax (a :: as) := mem_le_listMax _ _ hmem
  have hbq : ((bins : ℕ) : ℚ) ≠ 0 := by
    exact_mod_cast Nat.one_le_iff_ne_zero.mp hb
  unfold histCounts
  simp only [histEdges, linspace]
  by_cases hq : listMin (a :: as) = listMax (a :: as)
  · rw [if_pos hq]
    apply histCountsAux_linspaceFrom_pos (a :: as) a hmem bins _ _ hb
    · linarith
    · have hcancel : ((bins : ℕ) : ℚ) *
          ((listMax (a :: as) + 1/2 - (listMin (a :: as) - 1/2)) / ((bins : ℕ) : ℚ)) =
          listMax (a :: as) + 1/2 - (listMin (a :: as) - 1/2) := by
        rw [mul_comm, div_mul_cancel₀ _ hbq]
      rw [hcancel]
      linarith
  · rw [if_neg hq]
    apply histCountsAux_linspaceFrom_pos (a :: as) a hmem bins _ _ hb
    · exact hmin
    · have hcancel : ((bins : ℕ) : ℚ) *
          ((listMax (a :: as) - listMin (a :: as)) / ((bins : ℕ) : ℚ)) =
          listMax (a :: as) - listMin (a :: as) := by
        rw [mul_comm, div_mul_cancel₀ _ hbq]
      rw [hcancel]
      linarith

set_option maxRecDepth 10000

set_option maxHeartbeats 1000000

/-- C1 counterexample.  The claim asserts
`jensen_shannon_divergence A B = jensen_shannon_divergence B A` for *any*
two nonempty samples, but the histogram edges are derived from the first
(reference) argument only.  For `A = [0, 1]` and `B = [0, 1, 5]`, under
`A`'s edges the two samples produce identical histograms, so
`js A B = 0`; under `B`'s edges they do not, and `js B A > 1/4`, far
beyond any floating tolerance.  A third delta from the claim: for
`js([0, 1], [5])` the current sample misses every reference-derived bin,
the normalisation divides `0/0`, and the call yields NaN (`none`) rather
than any value in `[0, 1]`. -/
theorem c1_js_symmetry_counterexample :
    jensen_shannon_divergence [0, 1] [0, 1, 5] = some 0 ∧
    (∃ x : ℝ, jensen_shannon_divergence [0, 1, 5] [0, 1] = some x ∧ 1/4 < x) ∧
    jensen_shannon_divergence [0, 1] [5] = none := by
  refine ⟨?_, ?_, ?_⟩
  · have hPQ : histCounts (histEdges [0, 1] 50) [0, 1] =
        histCounts (histEdges [0, 1] 50) [0, 1, 5] := by
      norm_num [histCounts, histCountsAux, histEdges, listMin, listMax,
        linspace, linspaceFrom]
    have hs : 1 ≤ (histCounts (histEdges [0, 1] 50) [0, 1]).sum :=
      hist_sum_pos [0, 1] (by simp) 50 (by norm_num)
    unfold jensen_shannon_divergence
    rw [if_neg (by rw [← hPQ]; omega), ← hPQ, jsd_self, Real.sqrt_zero]
  · have hs1 : 1 ≤ (histCounts (histEdges [0, 1, 5] 50) [0, 1, 5]).sum :=
      hist_sum_pos [0, 1, 5] (by simp) 50 (by norm_num)
    have hs2 : (histCounts (histEdges [0, 1, 5] 50) [0, 1]).sum = 2 := by
      norm_num [histCounts, histCountsAux, histEdges, listMin, listMax,
        linspace, linspaceFrom]
    refine ⟨Real.sqrt (jsd
      (normalizeHist (histCounts (histEdges [0, 1, 5] 50) [0, 1, 5]))
      (normalizeHist (histCounts (histEdges [0, 1, 5] 50) [0, 1]))), ?_, ?_⟩
    · unfold jensen_shannon_divergence
      rw [if_neg (by omega)]
    · apply Real.lt_sqrt_of_sq_lt
      have hb1 := log_two_ge_half
      have hb2 := log_sixfifths_ge
      have hb3 := log_fourfifths_ge
      norm_num [jsd, klSum, klTerm, normalizeHist, histCounts, histCountsAux, histEdges,
        listMin, listMax, linspace, linspaceFrom]
      linarith
  · have hz : (histCounts (histEdges [0, 1] 50) [5]).sum = 0 := by
      norm_num [histCounts, histCountsAux, histEdges, listMin, listMax,
        linspace, linspaceFrom]
    unfold jensen_shannon_divergence
    rw [if_pos (Or.inr hz)]

/-- C1 (amended).  `jensen_shannon_divergence` of two nonempty samples is
symmetric *provided the samples have the same minimum and maximum* (then
the reference-derived histogram edges coincide); it returns exactly `0` on
identical samples (a nonempty sample always populates its own histogram,
so this path never divides by zero); and *whenever it returns a number at
all* — i.e. unless the current sample misses every reference-derived bin,
where the source computes `0/0 = NaN` and no number is produced — that
number lies in `[0, 1]`.  The unconditional symmetry and `[0, 1]` bound
the claim states are refuted by `c1_js_symmetry_counterexample`. -/
theorem c1_js_amended (A B : List ℚ) (hA : A ≠ []) (_hB : B ≠ []) :
    (listMin A = listMin B → listMax A = listMax B →
      jensen_shannon_divergence A B = jensen_shannon_divergence B A) ∧
    jensen_shannon_divergence A A = some 0 ∧
    (∀ x : ℝ, jensen_shannon_divergence A B = some x → 0 ≤ x ∧ x ≤ 1) := by
  refine ⟨fun h1 h2 => ?_, ?_, fun x hx => ?_⟩
  · have hE : histEdges A 50 = histEdges B 50 := by
      unfold histEdges
      rw [h1, h2]
    unfold jensen_shannon_divergence
    rw [hE]
    by_cases hz1 : (histCounts (histEdges B 50) A).sum = 0
    · rw [if_pos (Or.inl hz1), if_pos (Or.inr hz1)]
    · by_cases hz2 : (histCounts (histEdges B 50) B).sum = 0
      · rw [if_pos (Or.inr hz2), if_pos (Or.inl hz2)]
      · rw [if_neg (by tauto), if_neg (by tauto),
          jsd_comm (normalizeHist (histCounts (histEdges B 50) A))
            (normalizeHist (histCounts (histEdges B 50) B))]
  · have hs : 1 ≤ (histCounts (histEdges A 50) A).sum :=
      hist_sum_pos A hA 50 (by norm_num)
    unfold jensen_shannon_divergence
    rw [if_neg (by omega), jsd_self, Real.sqrt_zero]
  · unfold jensen_shannon_divergence at hx
    split at hx
    · exact absurd hx (by simp)
    · rw [Option.some_inj] at hx
      subst hx
      refine ⟨Real.sqrt_nonneg _, ?_⟩
      rw [Real.sqrt_le_one]
      exact jsd_le_one _ _ (normalizeHist_nonneg _) (normalizeHist_nonneg _)
        (normalizeHist_sum_le_one _) (normalizeHist_sum_le_one _)

/-- Witness for `c1_js_amended` at `A = [0, 1]`, `B = [1, 0]` (equal
extrema, so the symmetry hypothesis is dischargeable, and the bound
hypothesis holds with an actual returned number). -/
theorem c1_js_amended_witness :
    (listMin [0, 1] = listMin [1, 0] → listMax [0, 1] = listMax [1, 0] →
      jensen_shannon_divergence [0, 1] [1, 0] = jensen_shannon_divergence [1, 0] [0, 1]) ∧
    jensen_shannon_divergence [0, 1] [0, 1] = some 0 ∧
    (∀ x : ℝ, jensen_shannon_divergence [0, 1] [1, 0] = some x → 0 ≤ x ∧ x ≤ 1) :=
  c1_js_amended [0, 1] [1, 0] (by simp) (by simp)

theorem psiSum_self (l : List ℚ) :
    ((l.zip l).map
      (fun x => ((x.1 - x.2 : ℚ) : ℝ) * Real.log ((x.1 : ℝ) / (x.2 : ℝ)))).sum = 0 := by
  induction l with
  | nil => simp
  | cons a l ih =>
    simp only [List.zip_cons_cons, List.map_cons, List.sum_cons, sub_self]
    rw [ih]
    norm_num

/-- C2.  `population_stability_index` of a nonempty sample against itself
is exactly `0` (the identical proportion vectors make every summand
vanish, epsilon replacement included), and for arbitrary samples the
statistic is exactly the spec's formula
`Σ (curᵢ - refᵢ) * ln (curᵢ / refᵢ)` over proportions binned with
reference-derived edges and zero proportions replaced by `1e-10`
(`psi_formula_spec`). -/
theorem c2_psi_self_and_formula (S reference current : List ℚ) (_hS : S ≠ []) :
    population_stability_index S S = 0 ∧
    population_stability_index reference current = psi_formula_spec reference current := by
  constructor
  · show ((List.zip
      (zeroReplace ((histCounts (histEdges S 10) S).map
        (fun c : ℕ => (c : ℚ) / (S.length : ℚ))))
      (zeroReplace ((histCounts (histEdges S 10) S).map
        (fun c : ℕ => (c : ℚ) / (S.length : ℚ))))).map
      (fun x => ((x.1 - x.2 : ℚ) : ℝ) * Real.log ((x.1 : ℝ) / (x.2 : ℝ)))).sum = 0
    exact psiSum_self _
  · rfl

/-- Witness for `c2_psi_self_and_formula` at `S = [0]`,
`reference = [0]`, `current = [1]`. -/
theorem c2_psi_witness :
    population_stability_index [0] [0] = 0 ∧
    population_stability_index [0] [1] = psi_formula_spec [0] [1] :=
  c2_psi_self_and_formula [0] [0] [1] (by simp)

/-! ## ConfidenceAnalyzer (custom_metrics.py, lines 544–647) -/

/-- State of `ConfidenceAnalyzer`: the configured window capacity and the
two parallel lists `self.confidences` / `self.correctness`.  Correctness
flags are appended only for observations that carry one, so the two lists
can have different lengths. -/
structure ConfidenceAnalyzer where
  window_size : ℕ
  confidences : List ℚ
  correctness : List Bool
deriving DecidableEq

/-- Python's `lst[-w:]` for `w ≥ 1` (and for `w = 0` it agrees with
`lst[-0:] = lst` only when the list is no longer than `w`; the `w = 0`
quirk is handled separately in `log_confidence`). -/
def pyTail (w : ℕ) (l : List α) : List α := l.drop (l.length - w)

/-- `ConfidenceAnalyzer.log_confidence` (lines 574–593): append the
confidence, append the correctness flag only if one was supplied, then if
the confidence list exceeds `window_size` replace *both* lists by their
last `window_size` elements (`lst[-window_size:]`; for `window_size = 0`
Python's `lst[-0:]` is the whole list, so nothing is trimmed).  Note that
the reference implementation performs *no* range check on `confidence`. -/
def log_confidence (st : ConfidenceAnalyzer) (confidence : ℚ)
    (is_correct : Option Bool) : ConfidenceAnalyzer :=
  if st.window_size < (st.confidences ++ [confidence]).length then
    if st.window_size = 0 then
      ⟨st.window_size, st.confidences ++ [confidence], st.correctness ++ is_correct.toList⟩
    else
      ⟨st.window_size, pyTail st.window_size (st.confidences ++ [confidence]),
        pyTail st.window_size (st.correctness ++ is_correct.toList)⟩
  else ⟨st.window_size, st.confidences ++ [confidence], st.correctness ++ is_correct.toList⟩

/-- A fresh `ConfidenceAnalyzer` (the `__init__` body) fed a whole
sequence of `log_confidence` calls. -/
def runConfidence (w : ℕ) (L : List (ℚ × Option Bool)) : ConfidenceAnalyzer :=
  L.foldl (fun st e => log_confidence st e.1 e.2) ⟨w, [], []⟩

theorem pyTail_of_le {w : ℕ} {l : List α} (h : l.length ≤ w) : pyTail w l = l := by
  simp [pyTail, Nat.sub_eq_zero_of_le h]

theorem pyTail_length (w : ℕ) (l : List α) : (pyTail w l).length = min w l.length := by
  simp [pyTail]
  omega

theorem pyTail_key (w : ℕ) (hw : 1 ≤ w) (l : List α) (x : α) :
    pyTail w (pyTail w l ++ [x]) = pyTail w (l ++ [x]) := by
  rcases le_or_lt l.length w with h | h
  · rw [pyTail_of_le h]
  · have hlen : (pyTail w l).length = w := by
      rw [pyTail_length]
      omega
    unfold pyTail
    simp only [List.length_append, List.length_drop, List.length_cons, List.length_nil]
    have h1 : l.length - (l.length - w) + (0 + 1) - w = 1 := by omega
    have h2 : l.length + (0 + 1) - w = (l.length - w) + 1 := by omega
    rw [h1, h2]
    have hd1 : 1 ≤ (List.drop (l.length - w) l).length := by
      rw [List.length_drop]
      omega
    rw [List.drop_append_of_le_length hd1]
    rw [List.drop_append_of_le_length (by omega : l.length - w + 1 ≤ l.length)]
    rw [List.drop_drop]

theorem log_confidence_window (st : ConfidenceAnalyzer) (c : ℚ) (f : Option Bool) :
    (log_confidence st c f).window_size = st.window_size := by
  unfold log_confidence
  split
  · split <;> rfl
  · rfl

theorem log_confidence_confidences (st : ConfidenceAnalyzer) (c : ℚ) (f : Option Bool)
    (hw : 1 ≤ st.window_size) :
    (log_confidence st c f).confidences = pyTail st.window_size (st.confidences ++ [c]) := by
  unfold log_confidence
  split
  · rw [if_neg (by omega)]
  · rename_i h
    rw [pyTail_of_le (by omega)]

theorem log_confidence_correctness (st : ConfidenceAnalyzer) (c : ℚ) (f : Option Bool)
    (hw : 1 ≤ st.window_size)
    (hlen : st.correctness.length + f.toList.length ≤ st.confidences.length + 1) :
    (log_confidence st c f).correctness =
      pyTail st.window_size (st.correctness ++ f.toList) := by
  unfold log_confidence
  split
  · rw [if_neg (by omega)]
  · rename_i h
    rw [pyTail_of_le (by
      simp only [List.length_append, List.length_cons, List.length_nil] at h ⊢
      omega)]

theorem foldl_log_confidence_window (st : ConfidenceAnalyzer) (L : List (ℚ × Option Bool)) :
    (L.foldl (fun s e => log_confidence s e.1 e.2) st).window_size = st.window_size := by
  induction L generalizing st with
  | nil => rfl
  | cons e L ih => rw [List.foldl_cons, ih, log_confidence_window]

theorem runConfidence_window (w : ℕ) (L : List (ℚ × Option Bool)) :
    (runConfidence w L).window_size = w :=
  foldl_log_confidence_window _ L

theorem runConfidence_confidences (w : ℕ) (hw : 1 ≤ w) (L : List (ℚ × Option Bool)) :
    (runConfidence w L).confidences = pyTail w (L.map Prod.fst) := by
  induction L using List.reverseRecOn with
  | nil => simp [runConfidence, pyTail]
  | append_singleton M e ih =>
    have hstep : runConfidence w (M ++ [e]) =
        log_confidence (runConfidence w M) e.1 e.2 := by
      unfold runConfidence
      rw [List.foldl_append, List.foldl_cons, List.foldl_nil]
    have hwnd : (runConfidence w M).window_size = w := runConfidence_window w M
    rw [hstep]
    rw [log_confidence_confidences _ _ _ (by rw [hwnd]; exact hw)]
    rw [hwnd, ih, pyTail_key w hw, List.map_append]
    rfl

theorem runConfidence_all_flagged (w : ℕ) (hw : 1 ≤ w) (L : List (ℚ × Option Bool))
    (hall : ∀ e ∈ L, e.2.isSome = true) :
    (runConfidence w L).correctness = pyTail w (L.filterMap Prod.snd) ∧
    (runConfidence w L).correctness.length = (runConfidence w L).confidences.length := by
  induction L using List.reverseRecOn with
  | nil => constructor <;> simp [runConfidence, pyTail]
  | append_singleton M e ih =>
    have hallM : ∀ x ∈ M, x.2.isSome = true := fun x hx => hall x (by simp [hx])
    have he : e.2.isSome = true := hall e (by simp)
    obtain ⟨b, hb⟩ := Option.isSome_iff_exists.mp he
    obtain ⟨ihc, ihl⟩ := ih hallM
    have hwnd : (runConfidence w M).window_size = w := runConfidence_window w M
    have hconf : (runConfidence w M).confidences = pyTail w (M.map Prod.fst) :=
      runConfidence_confidences w hw M
    have hstep : runConfidence w (M ++ [e]) =
        log_confidence (runConfidence w M) e.1 e.2 := by
      unfold runConfidence
      rw [List.foldl_append, List.foldl_cons, List.foldl_nil]
    constructor
    · rw [hstep]
      rw [log_confidence_correctness _ _ _ (by rw [hwnd]; exact hw)
        (by rw [ihl]; simp [hb])]
      rw [hwnd, ihc, hb]
      simp only [Option.toList_some]
      rw [pyTail_key w hw, List.filterMap_append]
      simp [hb]
    · rw [hstep]
      rw [log_confidence_correctness _ _ _ (by rw [hwnd]; exact hw)
        (by rw [ihl]; simp [hb]),
        log_confidence_confidences _ _ _ (by rw [hwnd]; exact hw)]
      rw [hwnd, pyTail_length, pyTail_length]
      simp only [List.length_append, ihl, hb, Option.toList_some,
        List.length_cons, List.length_nil]

/-- C6 counterexample.  The claim says a `log_confidence` call with
confidence outside `[0, 1]` fails immediately and appends nothing; the
reference implementation has no range check at all, so logging `3/2` on a
fresh analyzer simply appends it to the window. -/
theorem c6_no_range_check_counterexample :
    (log_confidence ⟨1000, [], []⟩ (3/2) none).confidences = [3/2] ∧
    (log_confidence ⟨1000, [], []⟩ (3/2) none).correctness = [] :=
  ⟨rfl, rfl⟩

/-- C6 (amended).  `log_confidence` performs no range validation: every
call — whether the confidence lies in `[0, 1]` or not — succeeds (the
embedding is a total function with no error outcome, matching the
absence of any `raise` in the source) and appends the observation, which
becomes the newest entry of the window whenever `window_size ≥ 1`. -/
theorem c6_amended (st : ConfidenceAnalyzer) (c : ℚ) (f : Option Bool)
    (hw : 1 ≤ st.window_size) :
    (log_confidence st c f).confidences.getLast? = some c := by
  rw [log_confidence_confidences st c f hw]
  unfold pyTail
  rw [List.drop_append_of_le_length (by
    simp only [List.length_append, List.length_cons, List.length_nil]
    omega)]
  exact List.getLast?_concat _

/-- Witness for `c6_amended`: an out-of-range confidence `3/2` is
appended and retained. -/
theorem c6_amended_witness :
    (log_confidence ⟨1000, [], []⟩ (3/2) none).confidences.getLast? = some (3/2) :=
  c6_amended ⟨1000, [], []⟩ (3/2) none (by norm_num)

theorem filterMap_snd_length_of_all_some (L : List (ℚ × Option Bool))
    (hall : ∀ e ∈ L, e.2.isSome = true) :
    (L.filterMap Prod.snd).length = L.length := by
  induction L with
  | nil => rfl
  | cons e L ih =>
    obtain ⟨b, hb⟩ := Option.isSome_iff_exists.mp (hall e (by simp))
    simp only [List.filterMap_cons, hb, List.length_cons]
    rw [ih (fun x hx => hall x (by simp [hx]))]

/-- C7 counterexample.  The claim says that when the `window_size + 1`-th
observation arrives, the oldest entry is evicted *together with its paired
correctness flag*.  With `window_size = 2`, log `(0.1, correct := true)`
followed by two flag-less observations: the oldest confidence `0.1` is
evicted, yet its flag survives (`correctness = [true]`), now dangling next
to two retained observations that never carried a flag — because the
source trims `self.correctness[-window_size:]` positionally instead of
evicting the flag paired with the evicted observation. -/
theorem c7_flag_eviction_counterexample :
    (runConfidence 2 [(1/10, some true), (1/5, none), (3/10, none)]).confidences =
      [1/5, 3/10] ∧
    (runConfidence 2 [(1/10, some true), (1/5, none), (3/10, none)]).correctness =
      [true] :=
  ⟨rfl, rfl⟩

/-- C7 (amended).  After logging `window_size + 1` observations
(`window_size ≥ 1`), the confidence window holds exactly the most recent
`window_size` of them; *provided every observation carried a correctness
flag*, the evicted oldest observation's flag is evicted with it and every
retained confidence keeps its own flag.  (With partial flags the evicted
observation's flag can be retained — see
`c7_flag_eviction_counterexample`.) -/
theorem c7_amended (w : ℕ) (hw : 1 ≤ w) (L : List (ℚ × Option Bool))
    (hL : L.length = w + 1) :
    (runConfidence w L).confidences = (L.map Prod.fst).drop 1 ∧
    ((∀ e ∈ L, e.2.isSome = true) →
      (runConfidence w L).correctness = (L.filterMap Prod.snd).drop 1) := by
  constructor
  · rw [runConfidence_confidences w hw L]
    unfold pyTail
    congr 1
    rw [List.length_map, hL]
    omega
  · intro hall
    rw [(runConfidence_all_flagged w hw L hall).1]
    unfold pyTail
    congr 1
    rw [filterMap_snd_length_of_all_some L hall, hL]
    omega

/-- Witness for `c7_amended` at `window_size = 1` and two fully flagged
observations: the older observation and its flag are both evicted. -/
theorem c7_amended_witness :
    (runConfidence 1 [((0 : ℚ), some true), (1, some false)]).confidences = [1] ∧
    (runConfidence 1 [((0 : ℚ), some true), (1, some false)]).correctness = [false] := by
  have h := c7_amended 1 (by norm_num) [((0 : ℚ), some true), (1, some false)] (by simp)
  exact ⟨by rw [h.1]; rfl, by rw [h.2 (by simp)]; rfl⟩

/-- `ConfidenceAnalyzer._calculate_calibration` (custom_metrics.py, lines
632–647).  The body of this method is the only executable line of the
class: it is an unimplemented stub that returns `0.0` regardless of the
window contents (the docstring promises a calibration error, the body says
"TODO: Implement calibration calculation"). -/
def _calculate_calibration (_st : ConfidenceAnalyzer) : ℚ := 0

/-- The fields of the `get_statistics` result dictionary that the claims
refer to.  The median/std/percentile entries of the Python dict are not
modelled; no claim mentions them. -/
structure ConfidenceStatistics where
  mean : ℚ
  count : ℕ
  calibration_score : Option ℚ
deriving DecidableEq

/-- `ConfidenceAnalyzer.get_statistics` (lines 595–630), restricted to the
modelled fields: `none` on an empty window; the `calibration_score` key is
present exactly when at least one correctness flag has been recorded, and
its value is whatever `_calculate_calibration` returns. -/
def get_statistics (st : ConfidenceAnalyzer) : Option ConfidenceStatistics :=
  if st.confidences = [] then none
  else some ⟨st.confidences.sum / (st.confidences.length : ℚ), st.confidences.length,
    if st.correctness = [] then none else some (_calculate_calibration st)⟩

/-- Confidence decile of a confidence value (bucket `k` collects
confidences in `[k/10, (k+1)/10)`, with `1.0` in the top bucket). -/
def decile (c : ℚ) : ℕ := min 9 (Int.toNat ⌊c * 10⌋)

/-- Modelled from the spec: §4.3's calibration sentence — the source's
`_calculate_calibration` body is missing (stubbed to `0.0`), and the spec
prescribes "partition the window into confidence buckets (e.g., deciles),
compare each bucket's mean confidence against its empirical accuracy, and
aggregate the absolute gaps (expected-calibration-error style)".  Input is
the list of (confidence, correctness) observations that carry both
values. -/
def calibration_spec (pairs : List (ℚ × Bool)) : ℚ :=
  ((List.range 10).map (fun k =>
    let bucket := pairs.filter (fun x => decile x.1 == k)
    if bucket.length = 0 then 0
    else ((bucket.length : ℚ) / (pairs.length : ℚ)) *
      |(bucket.map Prod.fst).sum / (bucket.length : ℚ) -
        (bucket.countP Prod.snd : ℚ) / (bucket.length : ℚ)|)).sum

/-- C5 (code bug).  On a window holding one observation with confidence
`0.9` and correctness `false`, `get_statistics` does return a calibration
score (a correctness flag is present) — but the score is the stub's
constant `0`, although the single nonempty bucket's mean confidence
(`0.9`) differs from its empirical accuracy (`0`): the
expected-calibration-error the spec prescribes is `0.9 ≠ 0`.  The claimed
"equal to 0 exactly when every bucket's mean confidence matches its
empirical accuracy" therefore fails on the code. -/
theorem c5_calibration_stub_bug :
    get_statistics ⟨1000, [9/10], [false]⟩ =
      some ⟨9/10, 1, some 0⟩ ∧
    calibration_spec [(9/10, false)] = 9/10 ∧ (9/10 : ℚ) ≠ 0 := by
  refine ⟨?_, ?_, by norm_num⟩
  · norm_num [get_statistics, _calculate_calibration]
  · norm_num [calibration_spec, decile, List.range_succ]

/-! ## ModelPerformanceMonitor (custom_metrics.py, lines 352–537) -/

/-- State of `ModelPerformanceMonitor`: the configured `min_samples` and
the three parallel append-only lists of the `__init__` body.  Predictions
and ground-truth labels live in *separate* lists; a label is appended only
when `log_prediction` receives one. -/
structure ModelPerformanceMonitor where
  min_samples : ℕ
  predictions : List ℤ
  ground_truth : List ℤ
  prediction_timestamps : List ℕ
deriving DecidableEq

/-- `ModelPerformanceMonitor.log_prediction` (lines 392–416): always
append the prediction and a timestamp; append the ground truth only when
one is supplied. -/
def log_prediction (st : ModelPerformanceMonitor) (prediction : ℤ)
    (ground_truth : Option ℤ) (ts : ℕ) : ModelPerformanceMonitor :=
  ⟨st.min_samples, st.predictions ++ [prediction],
    st.ground_truth ++ ground_truth.toList, st.prediction_timestamps ++ [ts]⟩

/-- `sklearn.metrics.accuracy_score y_true y_pred`: fraction of positions
where the two sequences agree (the caller guarantees equal lengths;
sklearn raises otherwise, which the monitor models with
`SklearnError.inconsistent_length`). -/
def accuracy_score (t p : List ℤ) : ℚ :=
  ((t.zip p).countP (fun x => x.1 == x.2) : ℚ) / (t.length : ℚ)

/-- Number of pairs whose true label is `c` (sklearn's per-class support). -/
def support (pairs : List (ℤ × ℤ)) (c : ℤ) : ℕ :=
  pairs.countP (fun x => x.1 == c)

/-- Number of pairs predicted as `c`. -/
def predictedCount (pairs : List (ℤ × ℤ)) (c : ℤ) : ℕ :=
  pairs.countP (fun x => x.2 == c)

/-- Number of pairs with both the true and the predicted label `c`. -/
def truePositives (pairs : List (ℤ × ℤ)) (c : ℤ) : ℕ :=
  pairs.countP (fun x => x.1 == c && x.2 == c)

/-- Per-class precision, `0` when the class is never predicted (sklearn's
zero-division default; `x / 0 = 0` over `ℚ` matches it). -/
def precision_c (pairs : List (ℤ × ℤ)) (c : ℤ) : ℚ :=
  (truePositives pairs c : ℚ) / (predictedCount pairs c : ℚ)

/-- Per-class recall, `0` when the class has no support. -/
def recall_c (pairs : List (ℤ × ℤ)) (c : ℤ) : ℚ :=
  (truePositives pairs c : ℚ) / (support pairs c : ℚ)

/-- Per-class F1, `0` when precision and recall are both `0`. -/
def f1_c (pairs : List (ℤ × ℤ)) (c : ℤ) : ℚ :=
  2 * precision_c pairs c * recall_c pairs c / (precision_c pairs c + recall_c pairs c)

/-- The classes sklearn averages over: every label occurring as a truth
or as a prediction, without duplicates. -/
def classList (pairs : List (ℤ × ℤ)) : List ℤ :=
  (pairs.map Prod.fst ++ pairs.map Prod.snd).dedup

/-- sklearn's `average='weighted'`: support-weighted mean of a per-class
score. -/
def weightedAvg (pairs : List (ℤ × ℤ)) (f : ℤ → ℚ) : ℚ :=
  ((classList pairs).map (fun c => (support pairs c : ℚ) * f c)).sum /
    ((classList pairs).map (fun c => (support pairs c : ℚ))).sum

/-- `sklearn.metrics.precision_score (average='weighted')`. -/
def precision_score (t p : List ℤ) : ℚ := weightedAvg (t.zip p) (precision_c (t.zip p))

/-- `sklearn.metrics.recall_score (average='weighted')`. -/
def recall_score (t p : List ℤ) : ℚ := weightedAvg (t.zip p) (recall_c (t.zip p))

/-- `sklearn.metrics.f1_score (average='weighted')`. -/
def f1_score (t p : List ℤ) : ℚ := weightedAvg (t.zip p) (f1_c (t.zip p))

/-- The `ModelPerformanceMetrics` dataclass (lines 59–67). -/
structure ModelPerformanceMetrics where
  accuracy : ℚ
  precision : ℚ
  «recall» : ℚ
  f1_score : ℚ
  sample_count : ℕ
  timestamp : ℕ
deriving DecidableEq

/-- Severity of a log record emitted by the monitor. -/
inductive LogLevel
  | info
  | warning
  | error
deriving DecidableEq

/-- Exceptions sklearn's metric functions raise: inconsistent input
lengths, or empty input arrays. -/
inductive SklearnError
  | inconsistent_length
  | empty_input
deriving DecidableEq

/-- `ModelPerformanceMonitor.calculate_metrics` (lines 438–500): below
`min_samples` labeled records, return no snapshot and log a warning;
otherwise hand the two full lists to sklearn (which raises when their
lengths differ or they are empty) and return the snapshot plus an info
log. -/
def calculate_metrics (st : ModelPerformanceMonitor) (ts : ℕ) :
    Except SklearnError (Option ModelPerformanceMetrics × List LogLevel) :=
  if st.ground_truth.length < st.min_samples then .ok (none, [.warning])
  else if st.ground_truth.length ≠ st.predictions.length then .error .inconsistent_length
  else if st.ground_truth.length = 0 then .error .empty_input
  else .ok (some ⟨accuracy_score st.ground_truth st.predictions,
    precision_score st.ground_truth st.predictions,
    recall_score st.ground_truth st.predictions,
    f1_score st.ground_truth st.predictions,
    st.ground_truth.length, ts⟩, [.info])

/-- `ModelPerformanceMonitor.check_degradation` (lines 502–537): `false`
below `min_samples`; otherwise compute the current accuracy and flag
degradation — with an error-severity log — exactly when
`baseline_accuracy - current_accuracy > threshold` (strict). -/
def check_degradation (st : ModelPerformanceMonitor)
    (baseline_accuracy : ℚ) (threshold : ℚ) :
    Except SklearnError (Bool × List LogLevel) :=
  if st.ground_truth.length < st.min_samples then .ok (false, [])
  else if st.ground_truth.length ≠ st.predictions.length then .error .inconsistent_length
  else if st.ground_truth.length = 0 then .error .empty_input
  else if threshold < baseline_accuracy - accuracy_score st.ground_truth st.predictions then
    .ok (true, [.error])
  else .ok (false, [])

theorem nat_div_bounds (a b : ℕ) (h : a ≤ b) :
    0 ≤ (a : ℚ) / (b : ℚ) ∧ (a : ℚ) / (b : ℚ) ≤ 1 := by
  constructor
  · exact div_nonneg (Nat.cast_nonneg a) (Nat.cast_nonneg b)
  · rcases Nat.eq_zero_or_pos b with hb | hb
    · subst hb
      interval_cases a
      simp
    · rw [div_le_one (by exact_mod_cast hb)]
      exact_mod_cast h

theorem precision_c_bounds (pairs : List (ℤ × ℤ)) (c : ℤ) :
    0 ≤ precision_c pairs c ∧ precision_c pairs c ≤ 1 := by
  apply nat_div_bounds
  apply List.countP_mono_left
  intro x _ hx
  simp only [Bool.and_eq_true] at hx
  exact hx.2

theorem recall_c_bounds (pairs : List (ℤ × ℤ)) (c : ℤ) :
    0 ≤ recall_c pairs c ∧ recall_c pairs c ≤ 1 := by
  apply nat_div_bounds
  apply List.countP_mono_left
  intro x _ hx
  simp only [Bool.and_eq_true] at hx
  exact hx.1

theorem f1_formula_bounds (p r : ℚ) (hp0 : 0 ≤ p) (hp1 : p ≤ 1) (hr0 : 0 ≤ r) (hr1 : r ≤ 1) :
    0 ≤ 2 * p * r / (p + r) ∧ 2 * p * r / (p + r) ≤ 1 := by
  constructor
  · apply div_nonneg (by positivity) (by linarith)
  · rcases eq_or_lt_of_le (by linarith : (0 : ℚ) ≤ p + r) with h0 | h0
    · rw [← h0, div_zero]
      norm_num
    · rw [div_le_one h0]
      nlinarith [mul_nonneg hp0 (by linarith : (0 : ℚ) ≤ 1 - r),
        mul_nonneg hr0 (by linarith : (0 : ℚ) ≤ 1 - p)]

theorem f1_c_bounds (pairs : List (ℤ × ℤ)) (c : ℤ) :
    0 ≤ f1_c pairs c ∧ f1_c pairs c ≤ 1 := by
  obtain ⟨hp0, hp1⟩ := precision_c_bounds pairs c
  obtain ⟨hr0, hr1⟩ := recall_c_bounds pairs c
  exact f1_formula_bounds _ _ hp0 hp1 hr0 hr1

theorem weightedAvg_bounds (pairs : List (ℤ × ℤ)) (f : ℤ → ℚ)
    (hf : ∀ c ∈ classList pairs, 0 ≤ f c ∧ f c ≤ 1) :
    0 ≤ weightedAvg pairs f ∧ weightedAvg pairs f ≤ 1 := by
  have hnum : (0 : ℚ) ≤ ((classList pairs).map (fun c => (support pairs c : ℚ) * f c)).sum := by
    apply List.sum_nonneg
    intro x hx
    simp only [List.mem_map] at hx
    obtain ⟨c, hc, rfl⟩ := hx
    exact mul_nonneg (Nat.cast_nonneg _) (hf c hc).1
  have hden : (0 : ℚ) ≤ ((classList pairs).map (fun c => (support pairs c : ℚ))).sum := by
    apply List.sum_nonneg
    intro x hx
    simp only [List.mem_map] at hx
    obtain ⟨c, _, rfl⟩ := hx
    exact Nat.cast_nonneg _
  have hle : ((classList pairs).map (fun c => (support pairs c : ℚ) * f c)).sum ≤
      ((classList pairs).map (fun c => (support pairs c : ℚ))).sum := by
    apply List.sum_le_sum
    intro c hc
    calc (support pairs c : ℚ) * f c ≤ (support pairs c : ℚ) * 1 :=
          mul_le_mul_of_nonneg_left (hf c hc).2 (Nat.cast_nonneg _)
      _ = (support pairs c : ℚ) := mul_one _
  unfold weightedAvg
  constructor
  · exact div_nonneg hnum hden
  · rcases eq_or_lt_of_le hden with h0 | h0
    · rw [← h0, div_zero]
      norm_num
    · rw [div_le_one h0]
      exact hle

theorem accuracy_score_bounds (t p : List ℤ) :
    0 ≤ accuracy_score t p ∧ accuracy_score t p ≤ 1 := by
  apply nat_div_bounds
  calc (t.zip p).countP (fun x => x.1 == x.2) ≤ (t.zip p).length :=
        List.countP_le_length _
    _ = min t.length p.length := List.length_zip t p
    _ ≤ t.length := min_le_left _ _

theorem precision_score_bounds (t p : List ℤ) :
    0 ≤ precision_score t p ∧ precision_score t p ≤ 1 :=
  weightedAvg_bounds _ _ (fun c _ => precision_c_bounds _ c)

theorem recall_score_bounds (t p : List ℤ) :
    0 ≤ recall_score t p ∧ recall_score t p ≤ 1 :=
  weightedAvg_bounds _ _ (fun c _ => recall_c_bounds _ c)

theorem f1_score_bounds (t p : List ℤ) :
    0 ≤ f1_score t p ∧ f1_score t p ≤ 1 :=
  weightedAvg_bounds _ _ (fun c _ => f1_c_bounds _ c)

/-- C3 counterexample.  The claim says `check_degradation 0.90 0.10`
returns `true` whenever accuracy is *at most* `0.80`; but the trigger is
the strict comparison `baseline - current > threshold`, so at accuracy
exactly `4/5 = 0.80` (five labeled records, four matching) the degradation
is `0.10 ≯ 0.10` and the check returns `false`. -/
theorem c3_boundary_counterexample :
    check_degradation ⟨5, [1, 1, 1, 1, 0], [1, 1, 1, 1, 1], [0, 0, 0, 0, 0]⟩
        (9/10) (1/10) = .ok (false, []) ∧
    accuracy_score [1, 1, 1, 1, 1] [1, 1, 1, 1, 0] = 4/5 := by
  constructor
  · norm_num [check_degradation, accuracy_score, List.zip_cons_cons, List.countP_cons]
  · norm_num [accuracy_score, List.zip_cons_cons, List.countP_cons]

/-- C3 (amended).  With at least `min_samples` labeled records, aligned
lists and a nonempty history, `check_degradation 0.90 0.10` returns `true`
(with an error-severity log) whenever the current accuracy is *strictly
below* `0.80`, and `false` at accuracy `0.81`; at accuracy exactly `0.80`
it returns `false` (see `c3_boundary_counterexample`); with fewer than
`min_samples` labeled records it returns `false` for any state. -/
theorem c3_amended (st : ModelPerformanceMonitor)
    (hal : st.ground_truth.length = st.predictions.length)
    (hmin : st.min_samples ≤ st.ground_truth.length)
    (hne : st.ground_truth ≠ []) :
    (accuracy_score st.ground_truth st.predictions < 4/5 →
      check_degradation st (9/10) (1/10) = .ok (true, [.error])) ∧
    (accuracy_score st.ground_truth st.predictions = 81/100 →
      check_degradation st (9/10) (1/10) = .ok (false, [])) ∧
    (∀ st2 : ModelPerformanceMonitor, st2.ground_truth.length < st2.min_samples →
      check_degradation st2 (9/10) (1/10) = .ok (false, [])) := by
  have hlen0 : st.ground_truth.length ≠ 0 := by
    simpa [List.length_eq_zero] using hne
  refine ⟨fun hacc => ?_, fun hacc => ?_, fun st2 h2 => ?_⟩
  · unfold check_degradation
    rw [if_neg (by omega), if_neg (by simp [hal]), if_neg hlen0, if_pos (by linarith)]
  · unfold check_degradation
    rw [if_neg (by omega), if_neg (by simp [hal]), if_neg hlen0, if_neg (by
      rw [hacc]
      norm_num)]
  · unfold check_degradation
    rw [if_pos h2]

/-- Witness for `c3_amended`: five labeled records with accuracy `3/5`
trigger the degradation alarm, and a state short of `min_samples` does
not. -/
theorem c3_amended_witness :
    check_degradation ⟨5, [1, 1, 1, 0, 0], [1, 1, 1, 1, 1], [0, 0, 0, 0, 0]⟩
        (9/10) (1/10) = .ok (true, [.error]) ∧
    check_degradation ⟨9, [1, 1, 1, 0, 0], [1, 1, 1, 1, 1], [0, 0, 0, 0, 0]⟩
        (9/10) (1/10) = .ok (false, []) := by
  have h := c3_amended ⟨5, [1, 1, 1, 0, 0], [1, 1, 1, 1, 1], [0, 0, 0, 0, 0]⟩
    rfl (by norm_num) (by simp)
  refine ⟨h.1 ?_, h.2.2 ⟨9, [1, 1, 1, 0, 0], [1, 1, 1, 1, 1], [0, 0, 0, 0, 0]⟩ (by norm_num)⟩
  norm_num [accuracy_score, List.zip_cons_cons, List.countP_cons]

/-- C4 counterexample.  The claim promises a snapshot "as soon as the
labeled count reaches exactly `min_samples`", unconditionally.  But with
`min_samples = 1`, logging one unlabeled prediction and then one labeled
one leaves `predictions = [1, 1]` against `ground_truth = [1]`; the
labeled count equals `min_samples`, yet `calculate_metrics` passes the two
misaligned lists to sklearn, which raises an inconsistent-length error
instead of producing a snapshot. -/
theorem c4_misalignment_counterexample :
    calculate_metrics
        (log_prediction (log_prediction ⟨1, [], [], []⟩ 1 none 0) 1 (some 1) 1) 2 =
      .error .inconsistent_length := rfl

/-- C4 (amended).  Below `min_samples` labeled records,
`calculate_metrics` returns no snapshot and logs a warning; when the
labeled count reaches exactly `min_samples`, *provided every prediction
was logged with its ground truth* (equal list lengths) and the history is
nonempty, it returns a snapshot whose accuracy, precision, recall and F1
all lie in `[0, 1]`, plus an info log. -/
theorem c4_amended (st : ModelPerformanceMonitor) (ts : ℕ) :
    (st.ground_truth.length < st.min_samples →
      calculate_metrics st ts = .ok (none, [.warning])) ∧
    (st.ground_truth.length = st.min_samples →
      st.ground_truth.length = st.predictions.length →
      st.ground_truth ≠ [] →
      ∃ m : ModelPerformanceMetrics,
        calculate_metrics st ts = .ok (some m, [.info]) ∧
        0 ≤ m.accuracy ∧ m.accuracy ≤ 1 ∧
        0 ≤ m.precision ∧ m.precision ≤ 1 ∧
        0 ≤ m.«recall» ∧ m.«recall» ≤ 1 ∧
        0 ≤ m.f1_score ∧ m.f1_score ≤ 1 ∧
        m.sample_count = st.min_samples) := by
  constructor
  · intro h
    unfold calculate_metrics
    rw [if_pos h]
  · intro hmin hal hne
    have hlen0 : st.ground_truth.length ≠ 0 := by
      simpa [List.length_eq_zero] using hne
    refine ⟨⟨accuracy_score st.ground_truth st.predictions,
      precision_score st.ground_truth st.predictions,
      recall_score st.ground_truth st.predictions,
      f1_score st.ground_truth st.predictions,
      st.ground_truth.length, ts⟩, ?_, ?_, ?_, ?_, ?_, ?_, ?_, ?_, ?_, hmin⟩
    · unfold calculate_metrics
      rw [if_neg (by omega), if_neg (by simp [hal]), if_neg hlen0]
    · exact (accuracy_score_bounds _ _).1
    · exact (accuracy_score_bounds _ _).2
    · exact (precision_score_bounds _ _).1
    · exact (precision_score_bounds _ _).2
    · exact (recall_score_bounds _ _).1
    · exact (recall_score_bounds _ _).2
    · exact (f1_score_bounds _ _).1
    · exact (f1_score_bounds _ _).2

/-- Witness for `c4_amended`: a monitor short of `min_samples` warns and
returns no snapshot; one labeled record at `min_samples = 1` yields a
snapshot with all four metrics in `[0, 1]`. -/
theorem c4_amended_witness :
    calculate_metrics ⟨2, [1], [1], [0]⟩ 0 = .ok (none, [.warning]) ∧
    ∃ m : ModelPerformanceMetrics,
      calculate_metrics ⟨1, [1], [1], [0]⟩ 0 = .ok (some m, [.info]) ∧
      0 ≤ m.accuracy ∧ m.accuracy ≤ 1 ∧
      0 ≤ m.precision ∧ m.precision ≤ 1 ∧
      0 ≤ m.«recall» ∧ m.«recall» ≤ 1 ∧
      0 ≤ m.f1_score ∧ m.f1_score ≤ 1 ∧
      m.sample_count = 1 :=
  ⟨(c4_amended ⟨2, [1], [1], [0]⟩ 0).1 (by norm_num),
    (c4_amended ⟨1, [1], [1], [0]⟩ 0).2 rfl rfl (by simp)⟩

/-- A fresh monitor fed a whole sequence of `log_prediction` calls
(prediction, optional ground truth, timestamp). -/
def runPredictions (min_samples : ℕ) (L : List (ℤ × Option ℤ × ℕ)) :
    ModelPerformanceMonitor :=
  L.foldl (fun st e => log_prediction st e.1 e.2.1 e.2.2) ⟨min_samples, [], [], []⟩

theorem foldl_log_prediction_predictions (st : ModelPerformanceMonitor)
    (L : List (ℤ × Option ℤ × ℕ)) :
    (L.foldl (fun s e => log_prediction s e.1 e.2.1 e.2.2) st).predictions =
      st.predictions ++ L.map (fun e => e.1) := by
  induction L generalizing st with
  | nil => simp
  | cons e L ih =>
    rw [List.foldl_cons, ih]
    simp [log_prediction]

theorem foldl_log_prediction_ground_truth (st : ModelPerformanceMonitor)
    (L : List (ℤ × Option ℤ × ℕ)) :
    (L.foldl (fun s e => log_prediction s e.1 e.2.1 e.2.2) st).ground_truth =
      st.ground_truth ++ L.filterMap (fun e => e.2.1) := by
  induction L generalizing st with
  | nil => simp
  | cons e L ih =>
    rw [List.foldl_cons, ih]
    rcases he : e.2.1 with _ | b <;>
      simp [log_prediction, he, List.filterMap_cons]

theorem filterMap_length_lt_of_none (L : List (ℤ × Option ℤ × ℕ))
    (h : ∃ e ∈ L, e.2.1 = none) :
    (L.filterMap (fun e => e.2.1)).length < L.length := by
  induction L with
  | nil => simp at h
  | cons e L ih =>
    obtain ⟨x, hx, hnone⟩ := h
    rcases List.mem_cons.mp hx with rfl | hmem
    · rw [List.filterMap_cons, hnone]
      simp only [List.length_cons]
      exact Nat.lt_succ_of_le (List.length_filterMap_le _ _)
    · rw [List.filterMap_cons]
      rcases e.2.1 with _ | b
      · simp only [List.length_cons]
        exact Nat.lt_succ_of_le (List.length_filterMap_le _ _)
      · simp only [List.length_cons]
        exact Nat.succ_lt_succ (ih ⟨x, hmem, hnone⟩)

theorem filterMap_eq_map_of_all_some (L : List (ℤ × Option ℤ × ℕ))
    (h : ∀ e ∈ L, e.2.1.isSome = true) :
    L.filterMap (fun e => e.2.1) = L.map (fun e => e.2.1.getD 0) := by
  induction L with
  | nil => rfl
  | cons e L ih =>
    obtain ⟨b, hb⟩ := Option.isSome_iff_exists.mp (h e (by simp))
    rw [List.filterMap_cons, List.map_cons, hb]
    simp only [Option.getD_some]
    rw [ih (fun x hx => h x (by simp [hx]))]

/-- C10.  `log_prediction` always appends to `predictions` but appends to
`ground_truth` only when a label is supplied: after a call sequence in
which some prediction lacked its label the two lists differ in length
(so positional pairing is off by the missing entries), and
`calculate_metrics` / `check_degradation` pair the full lists
element-wise through `accuracy_score`'s `zip`, which matches each
prediction with its own label exactly when every `log_prediction` call
supplied its ground truth — then the accuracy is the fraction of calls
whose supplied label equals the logged prediction. -/
theorem c10_label_alignment (min_samples : ℕ) (L : List (ℤ × Option ℤ × ℕ)) :
    (runPredictions min_samples L).predictions = L.map (fun e => e.1) ∧
    (runPredictions min_samples L).ground_truth = L.filterMap (fun e => e.2.1) ∧
    ((∃ e ∈ L, e.2.1 = none) →
      (runPredictions min_samples L).ground_truth.length <
        (runPredictions min_samples L).predictions.length) ∧
    ((∀ e ∈ L, e.2.1.isSome = true) →
      (runPredictions min_samples L).ground_truth.zip
          (runPredictions min_samples L).predictions =
        L.map (fun e => (e.2.1.getD 0, e.1)) ∧
      accuracy_score (runPredictions min_samples L).ground_truth
          (runPredictions min_samples L).predictions =
        ((L.countP (fun e => e.2.1 == some e.1)) : ℚ) / (L.length : ℚ)) := by
  have hpred : (runPredictions min_samples L).predictions = L.map (fun e => e.1) :=
    foldl_log_prediction_predictions ⟨min_samples, [], [], []⟩ L
  have hgt : (runPredictions min_samples L).ground_truth =
      L.filterMap (fun e => e.2.1) :=
    foldl_log_prediction_ground_truth ⟨min_samples, [], [], []⟩ L
  refine ⟨hpred, hgt, fun hnone => ?_, fun hall => ?_⟩
  · rw [hpred, hgt, List.length_map]
    exact filterMap_length_lt_of_none L hnone
  · have hzip : (runPredictions min_samples L).ground_truth.zip
        (runPredictions min_samples L).predictions =
        L.map (fun e => (e.2.1.getD 0, e.1)) := by
      rw [hpred, hgt, filterMap_eq_map_of_all_some L hall, List.zip_map']
    refine ⟨hzip, ?_⟩
    unfold accuracy_score
    rw [hzip, hgt, filterMap_eq_map_of_all_some L hall, List.length_map,
      List.countP_map]
    congr 1
    norm_cast
    apply List.countP_congr
    intro e he
    obtain ⟨b, hb⟩ := Option.isSome_iff_exists.mp (hall e he)
    simp [Function.comp, hb]

/-- Witness for `c10_label_alignment`: one sequence with a missing label
(lengths `1 < 2`), and one fully labeled sequence whose zip pairs each
prediction with its own label. -/
theorem c10_label_alignment_witness :
    (runPredictions 10 [(1, none, 0), (2, some 2, 1)]).ground_truth.length <
      (runPredictions 10 [(1, none, 0), (2, some 2, 1)]).predictions.length ∧
    (runPredictions 10 [(1, some 1, 0), (2, some 3, 1)]).ground_truth.zip
        (runPredictions 10 [(1, some 1, 0), (2, some 3, 1)]).predictions =
      [(1, 1), (3, 2)] := by
  constructor
  · exact (c10_label_alignment 10 [(1, none, 0), (2, some 2, 1)]).2.2.1
      ⟨(1, none, 0), by simp, rfl⟩
  · rw [(c10_label_alignment 10 [(1, some 1, 0), (2, some 3, 1)]).2.2.2
      (by intro e he; fin_cases he <;> rfl)|>.1]
    rfl

/-! ## DataDriftDetector.detect_drift (custom_metrics.py, lines 252–316) -/

/-- The drift-detection method selector (`'ks'`, `'psi'`, `'js'`). -/
inductive DriftMethod
  | ks
  | psi
  | js
deriving DecidableEq

/-- The `DriftDetectionResult` dataclass (lines 48–56).  `is_drift` is the
threshold comparison recorded by `detect_drift`; it is carried as a
proposition because the statistic is a real number.  `statistic = none`
models a NaN statistic (see `jensen_shannon_divergence`); Python carries
the NaN along in the float field. -/
structure DriftDetectionResult where
  feature_name : String
  statistic : Option ℝ
  p_value : Option ℚ
  is_drift : Prop
  test_method : DriftMethod
  timestamp : ℕ

/-- State of `DataDriftDetector` after a successful `__init__` (lines
99–129): reference data stored per feature column, feature names,
threshold and method.  The constructor raises `ValueError` unless the
name count matches the feature count, so every constructed detector
carries that invariant (`h_names`). -/
structure DataDriftDetector where
  reference_data : List (List ℚ)
  feature_names : List String
  threshold : ℚ
  method : DriftMethod
  h_names : feature_names.length = reference_data.length

/-- The exception `detect_drift` escapes with when the production batch
has fewer feature columns than the reference: a bare numpy `IndexError`
from `current_data[:, i]` — there is no schema check in the source. -/
inductive DetectError
  | index_error
deriving DecidableEq

/-- `DataDriftDetector.detect_drift` (lines 252–316): loop over the
declared features in order; for each, run the selected test on the paired
reference/production columns and build one result, with
`is_drift = p_value < threshold` for KS, `statistic > 0.25` for PSI and
`statistic > 0.5` for JS (false when the JS statistic is NaN, exactly as
Python's `nan > 0.5`).  Indexing a missing production column raises
(`IndexError`), losing all results; *extra* production columns are
silently ignored.  The KS statistic and p-value come from
`scipy.stats.ks_2samp`, which is not reimplemented here: it enters as the
oracle parameter `ksFn`, and every theorem below holds for all `ksFn`. -/
noncomputable def detect_drift (ksFn : List ℚ → List ℚ → ℚ × ℚ) (d : DataDriftDetector)
    (current_data : List (List ℚ)) (ts : ℕ) :
    Except DetectError (List DriftDetectionResult) :=
  if d.feature_names.length ≤ current_data.length then
    .ok (d.feature_names.enum.map (fun pair =>
      match d.method with
      | .ks =>
          ⟨pair.2,
            some ((ksFn (d.reference_data.getD pair.1 []) (current_data.getD pair.1 [])).1 : ℝ),
            some (ksFn (d.reference_data.getD pair.1 []) (current_data.getD pair.1 [])).2,
            (ksFn (d.reference_data.getD pair.1 []) (current_data.getD pair.1 [])).2 < d.threshold,
            .ks, ts⟩
      | .psi =>
          ⟨pair.2, some (population_stability_index (d.reference_data.getD pair.1 [])
              (current_data.getD pair.1 [])),
            none,
            population_stability_index (d.reference_data.getD pair.1 [])
              (current_data.getD pair.1 []) > 1/4,
            .psi, ts⟩
      | .js =>
          ⟨pair.2, jensen_shannon_divergence (d.reference_data.getD pair.1 [])
              (current_data.getD pair.1 []),
            none,
            (∃ v : ℝ, jensen_shannon_divergence (d.reference_data.getD pair.1 [])
              (current_data.getD pair.1 []) = some v ∧ v > 1/2),
            .js, ts⟩))
  else .error .index_error

/-- C8 counterexample.  The claim says a batch whose feature-column count
*differs* from the reference's fails with a schema-mismatch error and
produces no result.  A batch with one extra column (2 columns against 1
declared feature) differs, yet `detect_drift` succeeds and returns one
result — the extra column is silently ignored. -/
theorem c8_extra_columns_counterexample :
    ∃ rs, detect_drift (fun _ _ => (0, 0))
        ⟨[[0, 1]], ["f0"], 1/20, .js, rfl⟩ [[0], [5]] 0 = .ok rs ∧
      rs.length = 1 :=
  ⟨_, rfl, rfl⟩

/-- C8 (amended).  `detect_drift` fails — with a bare index error, not a
schema-mismatch check — exactly when the batch has *fewer* feature
columns than declared, and then produces no results; for a batch with at
least as many columns (extra ones ignored) it returns exactly one
`DriftDetectionResult` per declared feature, in declaration order. -/
theorem c8_amended (ksFn : List ℚ → List ℚ → ℚ × ℚ) (d : DataDriftDetector)
    (current_data : List (List ℚ)) (ts : ℕ) :
    (current_data.length < d.feature_names.length →
      detect_drift ksFn d current_data ts = .error .index_error) ∧
    (d.feature_names.length ≤ current_data.length →
      ∃ rs, detect_drift ksFn d current_data ts = .ok rs ∧
        rs.map (fun r => r.feature_name) = d.feature_names ∧
        rs.length = d.feature_names.length) := by
  constructor
  · intro h
    unfold detect_drift
    rw [if_neg (by omega)]
  · intro h
    refine ⟨_, by unfold detect_drift; rw [if_pos h], ?_, ?_⟩
    · rw [List.map_map]
      refine (List.map_congr_left ?_).trans (List.enum_map_snd _)
      intro pair _
      rcases d.method <;> rfl
    · rw [List.length_map, List.enum_length]

/-- Witness for `c8_amended`: a batch with no columns against one declared
feature raises; a batch with exactly one column yields one named result. -/
theorem c8_amended_witness :
    detect_drift (fun _ _ => (0, 0)) ⟨[[0, 1]], ["f0"], 1/20, .js, rfl⟩ [] 0 =
      .error .index_error ∧
    ∃ rs, detect_drift (fun _ _ => (0, 0)) ⟨[[0, 1]], ["f0"], 1/20, .js, rfl⟩ [[2, 3]] 0 =
        .ok rs ∧
      rs.map (fun r => r.feature_name) = ["f0"] ∧
      rs.length = 1 :=
  ⟨(c8_amended (fun _ _ => (0, 0)) ⟨[[0, 1]], ["f0"], 1/20, .js, rfl⟩ [] 0).1 (by norm_num),
    (c8_amended (fun _ _ => (0, 0)) ⟨[[0, 1]], ["f0"], 1/20, .js, rfl⟩ [[2, 3]] 0).2
      (by norm_num)⟩

/-! ## DataQualityMonitor (custom_metrics.py, lines 654–722) -/

/-- The closed set of type tags a schema can declare.  The source resolves
the tag string with `eval(expected_type)`; the tags occurring in a
well-formed schema are exactly Python's `int`, `float`, `str`, `bool`. -/
inductive PyType
  | int
  | float
  | str
  | bool
deriving DecidableEq

/-- Runtime values of a request record. -/
inductive PyValue
  | vint (z : ℤ)
  | vfloat (q : ℚ)
  | vstr (s : String)
  | vbool (b : Bool)
deriving DecidableEq

/-- Python's `isinstance` on the modelled tags.  Note `isinstance(True,
int)` is `True` in Python (`bool` subclasses `int`), which the model
keeps. -/
def isinstance : PyValue → PyType → Bool
  | .vint _, .int => true
  | .vbool _, .int => true
  | .vfloat _, .float => true
  | .vstr _, .str => true
  | .vbool _, .bool => true
  | _, _ => false

/-- State of `DataQualityMonitor`: the immutable expected schema and the
per-feature `missing_features_total` counter that `validate_request`
increments (the exported Prometheus counter; the `issue_counts` dict the
constructor also initialises is never updated by `validate_request` and
is not modelled). -/
structure DataQualityMonitor where
  expected_schema : List (String × PyType)
  missing_features_total : String → ℕ

/-- The issue map `validate_request` returns: one list of offending
feature names per category, every category always present. -/
structure ValidationIssues where
  missing : List String
  type_error : List String
  out_of_range : List String
deriving DecidableEq

/-- `DataQualityMonitor.validate_request` (lines 684–722): every schema
feature absent from the record is reported under `missing` (in schema
order) and its counter incremented; every present feature whose value
fails `isinstance` against its declared tag is reported under
`type_error`; `out_of_range` is always returned empty (the range checks
are never wired in).  The function is total — malformed input is
characterised, never rejected. -/
def validate_request (m : DataQualityMonitor) (data : List (String × PyValue)) :
    ValidationIssues × DataQualityMonitor :=
  let missing := (m.expected_schema.map Prod.fst).filter
      (fun n => !((data.map Prod.fst).contains n))
  let type_error := (data.filter (fun kv =>
      match m.expected_schema.find? (fun s => s.1 == kv.1) with
      | some s => !(isinstance kv.2 s.2)
      | none => false)).map Prod.fst
  (⟨missing, type_error, []⟩,
    ⟨m.expected_schema,
      missing.foldl (fun cnt n => fun x => if x = n then cnt x + 1 else cnt x)
        m.missing_features_total⟩)

theorem foldl_counter_increment (names : List String) (cnt : String → ℕ) (f : String) :
    (names.foldl (fun c n => fun x => if x = n then c x + 1 else c x) cnt) f =
      cnt f + names.count f := by
  induction names generalizing cnt with
  | nil => simp
  | cons n names ih =>
    rw [List.foldl_cons, ih, List.count_cons]
    by_cases hf : f = n
    · subst hf
      simp
      omega
    · simp [hf, Ne.symm hf, beq_iff_eq]

/-- C9.  For every record and every schema feature absent from it,
`validate_request` reports the feature under `missing` and bumps its
`missing_features_total` counter by exactly one; `out_of_range` is always
the empty list (never absent), `missing` is empty when nothing is
missing, and the call is a total function — it cannot raise on malformed
input. -/
theorem c9_validate_missing (m : DataQualityMonitor) (data : List (String × PyValue))
    (f : String) (hnodup : (m.expected_schema.map Prod.fst).Nodup) :
    (f ∈ m.expected_schema.map Prod.fst → f ∉ data.map Prod.fst →
      f ∈ (validate_request m data).1.missing ∧
      (validate_request m data).2.missing_features_total f =
        m.missing_features_total f + 1) ∧
    (validate_request m data).1.out_of_range = [] ∧
    ((∀ n ∈ m.expected_schema.map Prod.fst, n ∈ data.map Prod.fst) →
      (validate_request m data).1.missing = []) := by
  refine ⟨fun hin hout => ⟨?_, ?_⟩, rfl, fun hall => ?_⟩
  · show f ∈ (m.expected_schema.map Prod.fst).filter
      (fun n => !((data.map Prod.fst).contains n))
    rw [List.mem_filter]
    exact ⟨hin, by simpa using hout⟩
  · show ((m.expected_schema.map Prod.fst).filter
        (fun n => !((data.map Prod.fst).contains n))).foldl
      (fun c n => fun x => if x = n then c x + 1 else c x) m.missing_features_total f =
      m.missing_features_total f + 1
    rw [foldl_counter_increment]
    congr 1
    have hmem : f ∈ (m.expected_schema.map Prod.fst).filter
        (fun n => !((data.map Prod.fst).contains n)) := by
      rw [List.mem_filter]
      exact ⟨hin, by simpa using hout⟩
    have hnd : ((m.expected_schema.map Prod.fst).filter
        (fun n => !((data.map Prod.fst).contains n))).Nodup := hnodup.filter _
    exact List.count_eq_one_of_mem hnd hmem
  · show (m.expected_schema.map Prod.fst).filter
      (fun n => !((data.map Prod.fst).contains n)) = []
    rw [List.filter_eq_nil_iff]
    intro n hn
    simpa using hall n hn

/-- Witness for `c9_validate_missing`: a schema requiring feature `age`
against an empty record reports `age` missing and bumps its counter from
`0` to `1`. -/
theorem c9_validate_missing_witness :
    ("age") ∈ (validate_request ⟨[(("age"), PyType.int)], fun _ => 0⟩ []).1.missing ∧
    (validate_request ⟨[(("age"), PyType.int)], fun _ => 0⟩ []).2.missing_features_total
      ("age") = 1 :=
  (c9_validate_missing ⟨[(("age"), PyType.int)], fun _ => 0⟩ [] ("age")
    (by simp)).1 (by simp) (by simp)
